import Mathlib

/-!
Shallow embedding of `wiki-toc-simple.js` (Sogrey/wiki-toc-simple), a browser
script that synthesizes a multi-level table of contents for Wiki.js pages.

Strings are modelled as `List Char` (JS strings, one entry per code point).
DOM elements are modelled by explicit structures carrying exactly the data the
script reads and writes.  Stateful DOM mutation is modelled by functions from
document state to document state.
-/

/-- ASCII case mapping: `A`-`Z` to `a`-`z`, all other characters
unchanged.  One of the three cases of `jsToLower` below. -/
def asciiLower (c : Char) : Char :=
  if h : 65 ≤ c.toNat ∧ c.toNat ≤ 90 then
    ⟨⟨c.toNat + 32, by omega⟩, by
      left
      simp [UInt32.toNat]
      omega⟩
  else c

/-- Models JS `String.prototype.toLowerCase`, per character (a character may
lower-case to several characters).  The mapping is exact on every code point
whose Unicode lowercase meets the character class `[\w一-龥]` kept by
`generateId`: the ASCII letters `A`-`Z`, U+0130 LATIN CAPITAL LETTER I WITH
DOT ABOVE (the only unconditional multi-character lowercase mapping, to
`i` + U+0307), and U+212A KELVIN SIGN (to `k`).  Every other character
either has no lowercase mapping or lower-cases to a single character that,
like the character itself, lies outside the kept class — both sides are
replaced by a hyphen by the following regex step, so modelling those
mappings as the identity leaves every keep decision, and hence the whole
`generateId` pipeline, unchanged.  (Unicode case mappings never produce
upper-case ASCII, digits, underscores, or CJK ideographs.) -/
def jsToLower (c : Char) : List Char :=
  if c.toNat = 0x130 then ['i', '\u0307']
  else if c.toNat = 0x212A then ['k']
  else [asciiLower c]

/-- JS `toLowerCase` on a whole string: concatenate the per-character
lowercase mappings. -/
def jsLowerString (s : List Char) : List Char :=
  (s.map jsToLower).flatten

/-- The JS regex class `\w`: `[A-Za-z0-9_]` (note: underscore included). -/
def isWordChar (c : Char) : Bool :=
  decide ((97 ≤ c.toNat ∧ c.toNat ≤ 122) ∨ (65 ≤ c.toNat ∧ c.toNat ≤ 90) ∨
    (48 ≤ c.toNat ∧ c.toNat ≤ 57) ∨ c.toNat = 95)

/-- The regex range `一-龥` (CJK ideographs) used in `generateId`. -/
def isCJK (c : Char) : Bool :=
  decide (0x4e00 ≤ c.toNat ∧ c.toNat ≤ 0x9fa5)

/-- A character the regex `[^\w一-龥]` does NOT match, i.e. one that
`generateId` keeps instead of replacing with a hyphen. -/
def keepChar (c : Char) : Bool := isWordChar c || isCJK c

/-- `replace(/[^\w一-龥]/g, '-')` from `generateId` (line 184). -/
def replaceSpecial (s : List Char) : List Char :=
  s.map (fun c => if keepChar c then c else '-')

/-- The hyphen-run replacement from `generateId` (line 185, pattern `-+`
replaced globally by `-`): every maximal run of hyphens collapses to a
single hyphen. -/
def collapseHyphens : List Char → List Char
  | [] => []
  | c :: rest =>
    match rest with
    | [] => [c]
    | d :: _ =>
      if c = '-' && d = '-' then collapseHyphens rest
      else c :: collapseHyphens rest

/-- The `^-` half of `replace(/^-|-$/g, '')` (line 186): drop one leading
hyphen.  With the `g` flag and no multiline flag the regex removes at most one
hyphen at the start (after a match at position 0, later positions are not the
start of the string). -/
def dropLeadingHyphen : List Char → List Char
  | [] => []
  | c :: rest => if c = '-' then rest else c :: rest

/-- The `-$` half of `replace(/^-|-$/g, '')` (line 186): drop one trailing
hyphen. -/
def dropTrailingHyphen : List Char → List Char
  | [] => []
  | [c] => if c = '-' then [] else [c]
  | c :: d :: rest => c :: dropTrailingHyphen (d :: rest)

/-- Digit character of a decimal digit (used for JS number-to-string in the
template literal `heading-${index}`): code point 48 plus the digit value. -/
def digitChar (d : Nat) : Char :=
  ⟨⟨48 + d % 10, by omega⟩, by
    left
    simp [UInt32.toNat]
    omega⟩

/-- Decimal digit list of a natural number, fuel-indexed so that the kernel
can evaluate it (the fuel `n + 1` always suffices since the argument shrinks
by a factor of ten each step). -/
def natDigitsAux : Nat → Nat → List Char
  | 0, _ => []
  | fuel + 1, n =>
    if n < 10 then [digitChar n]
    else natDigitsAux fuel (n / 10) ++ [digitChar (n % 10)]

/-- Models the JS template-literal rendering of the heading index in
`heading-${index}` (decimal representation of a non-negative integer). -/
def natDigits (n : Nat) : List Char := natDigitsAux (n + 1) n

/-- The chained-replace part of `generateId` (lines 182-186): lower-case the
text, replace every character outside `[\w一-龥]` with a hyphen, collapse
hyphen runs, strip one leading and one trailing hyphen. -/
def strippedId (text : List Char) : List Char :=
  dropTrailingHyphen (dropLeadingHyphen
    (collapseHyphens (replaceSpecial (jsLowerString text))))

/-- `generateId(text, index)` (lines 181-194): the chained replaces above,
falling back to `heading-<index>` when the result is empty. -/
def generateId (text : List Char) (index : Nat) : List Char :=
  if strippedId text = [] then ("heading-".toList) ++ natDigits index
  else strippedId text

/-- Character set the amended claim C1 allows in a generated identifier:
lower-case ASCII letters, digits, underscore, CJK ideographs, hyphen. -/
def isAllowedIdChar (c : Char) : Bool :=
  decide ((97 ≤ c.toNat ∧ c.toNat ≤ 122) ∨ (48 ≤ c.toNat ∧ c.toNat ≤ 57) ∨
    c.toNat = 95 ∨ (0x4e00 ≤ c.toNat ∧ c.toNat ≤ 0x9fa5) ∨ c.toNat = 45)

/-- Character set claim C1 literally allows in a generated identifier:
lower-case letters, digits, CJK ideographs, hyphens (no underscore). -/
def isClaimIdChar (c : Char) : Bool :=
  decide ((97 ≤ c.toNat ∧ c.toNat ≤ 122) ∨ (48 ≤ c.toNat ∧ c.toNat ≤ 57) ∨
    (0x4e00 ≤ c.toNat ∧ c.toNat ≤ 0x9fa5) ∨ c.toNat = 45)

/-- A character counted by claim C2 as a letter, digit, or CJK ideograph
(letters read as ASCII letters, the letters the JS regex `\w` recognizes). -/
def isTextualChar (c : Char) : Bool :=
  decide ((97 ≤ c.toNat ∧ c.toNat ≤ 122) ∨ (65 ≤ c.toNat ∧ c.toNat ≤ 90) ∨
    (48 ≤ c.toNat ∧ c.toNat ≤ 57) ∨ (0x4e00 ≤ c.toNat ∧ c.toNat ≤ 0x9fa5))

/-- No two adjacent characters of the list are both hyphens. -/
def noDoubleHyphen : List Char → Bool
  | [] => true
  | c :: rest =>
    match rest with
    | [] => true
    | d :: _ => !(c = '-' && d = '-') && noDoubleHyphen rest

/-- Models JS `String.prototype.trim` applied to `heading.textContent`
(line 116): strip leading and trailing whitespace. -/
def jsTrim (s : List Char) : List Char :=
  ((s.dropWhile Char.isWhitespace).reverse.dropWhile Char.isWhitespace).reverse

/-- A heading element (`h1`-`h6` inside the content region) as the script
reads and writes it.  `id = []` models an element with no `id` attribute
(the DOM reflects a missing attribute as the empty string, which is falsy in
the scripts truthiness tests).  `anchorHref` is the `href` of the first
internal anchor link `a[href^="#"]` inside the heading, when one exists.
`selfTabset` and `ancestorTabset` record whether the element itself,
respectively a strict ancestor, carries the class `tabset`; the DOM call
`closest('.tabset')` (lines 95, 218) matches when either holds
(ancestor-or-self search). -/
structure HeadingElem where
  level : Nat
  text : List Char
  id : List Char
  anchorHref : Option (List Char)
  selfTabset : Bool
  ancestorTabset : Bool
deriving DecidableEq

/-- One generated entry `<li class="wiki-toc-item"><a class="wiki-toc-link">`
(lines 146-152). -/
structure TocEntry where
  level : Nat
  text : List Char
  targetId : List Char
  indent : Nat
deriving DecidableEq

/-- One synthesized `.wiki-toc-simple` container (lines 105-156). -/
structure TocPanel where
  title : List Char
  entries : List TocEntry
deriving DecidableEq

/-- The mutable global `config` (lines 30-45).  The two selector fields are
not modelled as strings: whether they match is part of the document state
(`Doc.hasContent`, `Doc.native`). -/
structure Config where
  tocTitle : List Char
  scrollOffset : Int
deriving DecidableEq

/-- Document state, restricted to what the script reads and writes.
`hasContent` says whether `config.contentSelector` matches a content region;
`headings` are the `h1`-`h6` elements inside that region in document order;
`tocs` are the `.wiki-toc-simple` containers present, in document order;
`native` is the Wiki.js native widget matched by `config.tocSelector`
(`none` when absent), carrying its current inline `style.display` value. -/
structure Doc where
  hasContent : Bool
  headings : List HeadingElem
  tocs : List TocPanel
  native : Option (List Char)
deriving DecidableEq

/-- Whether a heading survives the tabset exclusion filter
(lines 93-97, 216-220): `closest('.tabset')` must find nothing, i.e.
neither the element itself nor any ancestor carries the class. -/
def headingKept (h : HeadingElem) : Bool :=
  !(h.selfTabset || h.ancestorTabset)

/-- The Heading Collector: the filter applied to
`content.querySelectorAll('h1, h2, h3, h4, h5, h6')` both in `generateTOC`
(lines 92-97) and in `updateElements` (lines 214-220). -/
def collectHeadings (doc : Doc) : List HeadingElem :=
  doc.headings.filter headingKept

/-- The anchor-id resolution for one heading (lines 118-140): use the
elements own non-empty `id`; otherwise the fragment of an internal anchor
link when that fragment is non-empty; otherwise derive a fresh id with
`generateId` and write it back onto the element.  Returns the resolved id
and the (possibly updated) element. -/
def resolveHeadingId (h : HeadingElem) (index : Nat) : List Char × HeadingElem :=
  let id0 : List Char :=
    if h.id ≠ [] then h.id
    else
      match h.anchorHref with
      | some href => href.drop 1
      | none => []
  if id0 = [] then
    let nid := generateId (jsTrim h.text) index
    (nid, if h.id = [] then { h with id := nid } else h)
  else (id0, h)

/-- The `headings.forEach` loop of `generateTOC` (lines 112-153): walk the
heading elements in document order, skip the ones excluded by the tabset
filter, resolve an id for each surviving one (counting only survivors, the
index of the filtered collection) and emit its entry.  Returns the updated
heading elements (in-place id write-backs) and the generated entries. -/
def processHeadings : List HeadingElem → Nat → List HeadingElem × List TocEntry
  | [], _ => ([], [])
  | h :: rest, idx =>
    if headingKept h then
      let r := resolveHeadingId h idx
      let pr := processHeadings rest (idx + 1)
      (r.2 :: pr.1, ⟨h.level, jsTrim h.text, r.1, (h.level - 1) * 12 + 5⟩ :: pr.2)
    else
      let pr := processHeadings rest idx
      (h :: pr.1, pr.2)

/-- `removeExistingTOC()` (lines 55-68): remove the first `.wiki-toc-simple`
container if one exists (`querySelector` returns the first match), then
clear the native widgets inline display (`style.display = ''`) when the
native widget is present. -/
def removeExistingTOC (doc : Doc) : Doc :=
  let d : Doc := { doc with tocs := doc.tocs.tail }
  match d.native with
  | none => d
  | some _ => { d with native := some [] }

/-- `insertTOC(tocHTML)` (lines 352-367): when the native widget is present,
insert the synthesized container as its preceding sibling and hide the
widget (`style.display = 'none'`); otherwise do nothing.  Under the
one-container invariant the document has no other `.wiki-toc-simple` at this
point, so the insertion position among other containers is immaterial. -/
def insertTOC (panel : TocPanel) (doc : Doc) : Doc :=
  match doc.native with
  | none => doc
  | some _ => { doc with tocs := panel :: doc.tocs, native := some "none".toList }

/-- `generateTOC()` (lines 80-165): clean up, locate the content region,
collect and filter headings, bail out when there is no content or no
surviving heading, otherwise build the entries and mount the container.
This is also the public `refresh()` (line 578). -/
def generateTOC (cfg : Config) (doc : Doc) : Doc :=
  let d := removeExistingTOC doc
  if !d.hasContent then d
  else if (collectHeadings d).length = 0 then d
  else
    let pr := processHeadings d.headings 0
    insertTOC ⟨cfg.tocTitle, pr.2⟩ { d with headings := pr.1 }

/-- A headings geometry as the Scroll Tracker reads it: its `id` and its
`offsetTop` (line 255). -/
structure HeadingPos where
  id : List Char
  offsetTop : Int
deriving DecidableEq

/-- The downward `for` loop of `getCurrentHeading` (lines 253-260): scan the
list from the last element to the first and return the first element
satisfying the predicate (so later elements take priority). -/
def scanBack (p : HeadingPos → Bool) : List HeadingPos → Option HeadingPos
  | [] => none
  | h :: rest =>
    match scanBack p rest with
    | some r => some r
    | none => if p h then some h else none

/-- `getCurrentHeading()` (lines 248-264): with threshold
`config.scrollOffset + 10` (read from the config at evaluation time), return
the id of the last heading in document order whose `offsetTop` is at most
`scrollTop + threshold`; if none qualifies, the first headings id; `null`
when the list is empty. -/
def getCurrentHeading (cfg : Config) (headings : List HeadingPos)
    (scrollTop : Int) : Option (List Char) :=
  match scanBack (fun h => decide (h.offsetTop ≤ scrollTop + (cfg.scrollOffset + 10))) headings with
  | some h => some h.id
  | none =>
    match headings with
    | [] => none
    | h :: _ => some h.id

/-- The click handler bound to each `.wiki-toc-link` (lines 383-403).
`getElementById` is abstracted as a lookup capability from an element id to
the elements `offsetTop`, `none` when no element with that id exists.  The
result is the `window.scrollTo` target top, or `none` when the click does
not scroll (the stale-target no-op; `preventDefault` always suppresses the
default jump). -/
def handleTocClick (cfg : Config) (getElementById : List Char → Option Int)
    (href : List Char) : Option Int :=
  match getElementById (href.drop 1) with
  | some top => some (top - cfg.scrollOffset)
  | none => none

/-- `scrollTocToVisible(activeLink)` (lines 296-335).  Arguments are the
geometry values the code reads: the containers bounding-rect top and
height, the links bounding-rect top and bottom, the containers current
`scrollTop` and its `scrollHeight`.  Returns the `scrollTo` target for the
panels internal scroll, or `none` when the link is already fully visible. -/
def scrollTocToVisible (containerTop containerHeight linkRectTop linkRectBottom
    tocScrollTop scrollHeight : Int) : Option Int :=
  let linkTop := linkRectTop - containerTop
  let linkBottom := linkRectBottom - containerTop
  if 0 ≤ linkTop ∧ linkBottom ≤ containerHeight then none
  else
    let s :=
      if linkTop < 0 then tocScrollTop + linkTop - 10
      else tocScrollTop + linkBottom - containerHeight + 10
    some (max 0 (min s (scrollHeight - containerHeight)))


/-- The heading-element fields that `generateTOC` never mutates (only the
`id` attribute is ever written back): level, text, and the two tabset
flags.  Used to relate document states across regeneration runs. -/
def headingShape (h : HeadingElem) : Nat × List Char × Bool × Bool :=
  (h.level, h.text, h.selfTabset, h.ancestorTabset)

/-! ## Lemmas about the identifier pipeline -/

theorem asciiLower_toNat (c : Char) :
    (asciiLower c).toNat =
      if 65 ≤ c.toNat ∧ c.toNat ≤ 90 then c.toNat + 32 else c.toNat := by
  unfold asciiLower
  split <;> rfl

theorem jsToLower_not_upper (c x : Char) (hx : x ∈ jsToLower c) :
    ¬(65 ≤ x.toNat ∧ x.toNat ≤ 90) := by
  unfold jsToLower at hx
  by_cases h1 : c.toNat = 0x130
  · rw [if_pos h1] at hx
    rcases List.mem_cons.mp hx with hx | hx
    · subst hx
      decide
    · simp only [List.mem_singleton] at hx
      subst hx
      decide
  · rw [if_neg h1] at hx
    by_cases h2 : c.toNat = 0x212A
    · rw [if_pos h2] at hx
      simp only [List.mem_singleton] at hx
      subst hx
      decide
    · rw [if_neg h2] at hx
      simp only [List.mem_singleton] at hx
      subst hx
      have ht := asciiLower_toNat c
      split at ht <;> omega

theorem mem_jsLowerString (t : List Char) (x : Char)
    (hx : x ∈ jsLowerString t) : ∃ c ∈ t, x ∈ jsToLower c := by
  unfold jsLowerString at hx
  rw [List.mem_flatten] at hx
  obtain ⟨s, hs, hxs⟩ := hx
  rw [List.mem_map] at hs
  obtain ⟨c, hc, rfl⟩ := hs
  exact ⟨c, hc, hxs⟩

theorem keep_lower_allowed (c x : Char) (hx : x ∈ jsToLower c)
    (hk : keepChar x = true) : isAllowedIdChar x = true := by
  have hnu := jsToLower_not_upper c x hx
  simp only [keepChar, isWordChar, isCJK, Bool.or_eq_true,
    decide_eq_true_eq] at hk
  simp only [isAllowedIdChar, decide_eq_true_eq]
  omega

theorem mem_replaceSpecial_allowed (t : List Char) (c : Char)
    (h : c ∈ replaceSpecial (jsLowerString t)) : isAllowedIdChar c = true := by
  simp only [replaceSpecial, List.mem_map] at h
  obtain ⟨x, hx, rfl⟩ := h
  obtain ⟨y, _, hxy⟩ := mem_jsLowerString t x hx
  by_cases hk : keepChar x = true
  · rw [if_pos hk]
    exact keep_lower_allowed y x hxy hk
  · rw [if_neg hk]
    decide

theorem collapseHyphens_cons_cons (c d : Char) (r : List Char) :
    collapseHyphens (c :: d :: r) =
      if (decide (c = '-') && decide (d = '-')) = true then collapseHyphens (d :: r)
      else c :: collapseHyphens (d :: r) := rfl

theorem noDoubleHyphen_cons_cons (c d : Char) (r : List Char) :
    noDoubleHyphen (c :: d :: r) =
      (!(decide (c = '-') && decide (d = '-')) && noDoubleHyphen (d :: r)) := rfl

theorem dropTrailingHyphen_cons_cons (c d : Char) (r : List Char) :
    dropTrailingHyphen (c :: d :: r) = c :: dropTrailingHyphen (d :: r) := rfl

theorem collapseHyphens_cons (c : Char) (r : List Char) :
    ∃ t, collapseHyphens (c :: r) = c :: t := by
  induction r generalizing c with
  | nil => exact ⟨[], rfl⟩
  | cons d r2 ih =>
    rw [collapseHyphens_cons_cons]
    by_cases hc : (decide (c = '-') && decide (d = '-')) = true
    · obtain ⟨t, ht⟩ := ih d
      simp only [Bool.and_eq_true, decide_eq_true_eq] at hc
      refine ⟨t, ?_⟩
      rw [if_pos (by simp [hc.1, hc.2]), ht, hc.1, hc.2]
    · exact ⟨collapseHyphens (d :: r2), by rw [if_neg hc]⟩

theorem mem_collapseHyphens (l : List Char) (c : Char)
    (h : c ∈ collapseHyphens l) : c ∈ l := by
  induction l with
  | nil => simp [collapseHyphens] at h
  | cons d r ih =>
    cases r with
    | nil => simpa [collapseHyphens] using h
    | cons e r2 =>
      rw [collapseHyphens_cons_cons] at h
      by_cases hc : (decide (d = '-') && decide (e = '-')) = true
      · rw [if_pos hc] at h
        exact List.mem_cons_of_mem d (ih h)
      · rw [if_neg hc] at h
        rcases List.mem_cons.mp h with h | h
        · exact h ▸ List.mem_cons_self d _
        · exact List.mem_cons_of_mem d (ih h)

theorem noDouble_collapseHyphens (l : List Char) :
    noDoubleHyphen (collapseHyphens l) = true := by
  induction l with
  | nil => rfl
  | cons c r ih =>
    cases r with
    | nil => rfl
    | cons d r2 =>
      rw [collapseHyphens_cons_cons]
      by_cases hc : (decide (c = '-') && decide (d = '-')) = true
      · rw [if_pos hc]
        exact ih
      · rw [if_neg hc]
        obtain ⟨t, ht⟩ := collapseHyphens_cons d r2
        rw [ht]
        rw [ht] at ih
        rw [noDoubleHyphen_cons_cons, Bool.and_eq_true]
        refine ⟨?_, ih⟩
        rw [show (decide (c = '-') && decide (d = '-')) = false from
          Bool.eq_false_iff.mpr hc]
        rfl

theorem noDouble_tail (c : Char) (r : List Char)
    (h : noDoubleHyphen (c :: r) = true) : noDoubleHyphen r = true := by
  cases r with
  | nil => rfl
  | cons d r2 =>
    rw [noDoubleHyphen_cons_cons, Bool.and_eq_true] at h
    exact h.2

theorem dropLeadingHyphen_eq (c : Char) (r : List Char) :
    dropLeadingHyphen (c :: r) = if c = '-' then r else c :: r := rfl

theorem noDouble_dropLeadingHyphen (l : List Char)
    (h : noDoubleHyphen l = true) :
    noDoubleHyphen (dropLeadingHyphen l) = true := by
  cases l with
  | nil => rfl
  | cons c r =>
    rw [dropLeadingHyphen_eq]
    by_cases hc : c = '-'
    · rw [if_pos hc]
      exact noDouble_tail c r h
    · rw [if_neg hc]
      exact h

theorem mem_dropLeadingHyphen (l : List Char) (c : Char)
    (h : c ∈ dropLeadingHyphen l) : c ∈ l := by
  cases l with
  | nil => simp [dropLeadingHyphen] at h
  | cons d r =>
    rw [dropLeadingHyphen_eq] at h
    by_cases hd : d = '-'
    · rw [if_pos hd] at h
      exact List.mem_cons_of_mem d h
    · rwa [if_neg hd] at h

theorem mem_dropTrailingHyphen (l : List Char) (c : Char)
    (h : c ∈ dropTrailingHyphen l) : c ∈ l := by
  induction l with
  | nil => simp [dropTrailingHyphen] at h
  | cons d r ih =>
    cases r with
    | nil =>
      simp only [dropTrailingHyphen] at h
      split at h
      · simp at h
      · exact h
    | cons e r2 =>
      rw [dropTrailingHyphen_cons_cons] at h
      rcases List.mem_cons.mp h with h | h
      · exact h ▸ List.mem_cons_self d _
      · exact List.mem_cons_of_mem d (ih h)

theorem dropTrailingHyphen_head (l : List Char) :
    dropTrailingHyphen l = [] ∨ (dropTrailingHyphen l).head? = l.head? := by
  cases l with
  | nil => exact Or.inl rfl
  | cons c r =>
    cases r with
    | nil =>
      simp only [dropTrailingHyphen]
      split
      · exact Or.inl rfl
      · exact Or.inr rfl
    | cons d r2 =>
      rw [dropTrailingHyphen_cons_cons]
      exact Or.inr rfl

theorem dropTrailingHyphen_eq_nil (l : List Char)
    (h : dropTrailingHyphen l = []) : l = [] ∨ l = ['-'] := by
  cases l with
  | nil => exact Or.inl rfl
  | cons c r =>
    cases r with
    | nil =>
      simp only [dropTrailingHyphen] at h
      split at h
      · rename_i hc
        exact Or.inr (by rw [hc])
      · exact absurd h (by simp)
    | cons d r2 =>
      rw [dropTrailingHyphen_cons_cons] at h
      exact absurd h (by simp)

theorem noDouble_dropTrailingHyphen (l : List Char)
    (h : noDoubleHyphen l = true) :
    noDoubleHyphen (dropTrailingHyphen l) = true := by
  induction l with
  | nil => rfl
  | cons c r ih =>
    cases r with
    | nil =>
      simp only [dropTrailingHyphen]
      split <;> rfl
    | cons d r2 =>
      rw [dropTrailingHyphen_cons_cons]
      have hr := ih (noDouble_tail c _ h)
      rcases dropTrailingHyphen_head (d :: r2) with hnil | hhead
      · rw [hnil]
        rfl
      · cases hx : dropTrailingHyphen (d :: r2) with
        | nil => rfl
        | cons x xs =>
          rw [noDoubleHyphen_cons_cons, Bool.and_eq_true]
          have hxd : x = d := by
            rw [hx] at hhead
            simpa using hhead
          subst hxd
          refine ⟨?_, by rwa [hx] at hr⟩
          rw [noDoubleHyphen_cons_cons, Bool.and_eq_true] at h
          exact h.1

theorem strippedId_mem (t : List Char) (c : Char) (h : c ∈ strippedId t) :
    c ∈ replaceSpecial (jsLowerString t) := by
  unfold strippedId at h
  exact mem_collapseHyphens _ _
    (mem_dropLeadingHyphen _ _ (mem_dropTrailingHyphen _ _ h))

theorem strippedId_noDouble (t : List Char) :
    noDoubleHyphen (strippedId t) = true := by
  unfold strippedId
  exact noDouble_dropTrailingHyphen _
    (noDouble_dropLeadingHyphen _ (noDouble_collapseHyphens _))

theorem noDouble_head_tail (c d : Char) (r : List Char)
    (h : noDoubleHyphen (c :: d :: r) = true) (hc : c = '-') : d ≠ '-' := by
  rw [noDoubleHyphen_cons_cons, Bool.and_eq_true] at h
  intro hd
  rw [hc, hd] at h
  simpa using h.1

theorem strip_head_aux (l : List Char) (hnd : noDoubleHyphen l = true)
    (c : Char)
    (h : (dropTrailingHyphen (dropLeadingHyphen l)).head? = some c) :
    c ≠ '-' := by
  have hstep : ∀ x, (dropLeadingHyphen l).head? = some x → x ≠ '-' := by
    cases l with
    | nil => intro x hx; simp [dropLeadingHyphen] at hx
    | cons a r =>
      rw [dropLeadingHyphen_eq]
      by_cases ha : a = '-'
      · rw [if_pos ha]
        cases r with
        | nil => intro x hx; simp at hx
        | cons b r2 =>
          intro x hx
          simp only [List.head?_cons, Option.some.injEq] at hx
          subst hx
          exact noDouble_head_tail a b r2 hnd ha
      · rw [if_neg ha]
        intro x hx
        simp only [List.head?_cons, Option.some.injEq] at hx
        subst hx
        exact ha
  rcases dropTrailingHyphen_head (dropLeadingHyphen l) with hnil | hhead
  · rw [hnil] at h
    simp at h
  · rw [hhead] at h
    exact hstep c h

theorem strippedId_head (t : List Char) (c : Char)
    (h : (strippedId t).head? = some c) : c ≠ '-' := by
  unfold strippedId at h
  exact strip_head_aux _ (noDouble_collapseHyphens _) c h

theorem dropTrailingHyphen_last (l : List Char) (hnd : noDoubleHyphen l = true)
    (c : Char) (h : (dropTrailingHyphen l).getLast? = some c) : c ≠ '-' := by
  induction l with
  | nil => simp [dropTrailingHyphen] at h
  | cons d r ih =>
    cases r with
    | nil =>
      simp only [dropTrailingHyphen] at h
      split at h
      · simp at h
      · rename_i hd
        simp only [List.getLast?_singleton, Option.some.injEq] at h
        subst h
        exact hd
    | cons e r2 =>
      rw [dropTrailingHyphen_cons_cons] at h
      cases hx : dropTrailingHyphen (e :: r2) with
      | nil =>
        rw [hx] at h
        simp only [List.getLast?_singleton, Option.some.injEq] at h
        subst h
        rcases dropTrailingHyphen_eq_nil _ hx with h1 | h1
        · simp at h1
        · have he : e = '-' := by
            simpa using congrArg List.head? h1
          intro hc
          exact noDouble_head_tail d e r2 hnd hc he
      | cons x xs =>
        rw [hx] at h
        rw [List.getLast?_cons_cons] at h
        exact ih (noDouble_tail d _ hnd) (by rwa [hx])

theorem strippedId_last (t : List Char) (c : Char)
    (h : (strippedId t).getLast? = some c) : c ≠ '-' := by
  unfold strippedId at h
  exact dropTrailingHyphen_last _
    (noDouble_dropLeadingHyphen _ (noDouble_collapseHyphens _)) c h

theorem digitChar_toNat (d : Nat) : (digitChar d).toNat = 48 + d % 10 := rfl

theorem mem_natDigitsAux_digit (fuel : Nat) :
    ∀ n c, c ∈ natDigitsAux fuel n → 48 ≤ c.toNat ∧ c.toNat ≤ 57 := by
  induction fuel with
  | zero => intro n c h; simp [natDigitsAux] at h
  | succ f ih =>
    intro n c h
    simp only [natDigitsAux] at h
    split at h
    · simp only [List.mem_singleton] at h
      subst h
      rw [digitChar_toNat]
      omega
    · rcases List.mem_append.mp h with h | h
      · exact ih _ _ h
      · simp only [List.mem_singleton] at h
        subst h
        rw [digitChar_toNat]
        omega

theorem mem_natDigits_digit (n : Nat) (c : Char) (h : c ∈ natDigits n) :
    48 ≤ c.toNat ∧ c.toNat ≤ 57 := mem_natDigitsAux_digit _ _ _ h

theorem natDigits_ne_nil (n : Nat) : natDigits n ≠ [] := by
  unfold natDigits natDigitsAux
  split <;> simp

theorem noDouble_of_no_hyphen (l : List Char) (h : ∀ c ∈ l, c ≠ '-') :
    noDoubleHyphen l = true := by
  induction l with
  | nil => rfl
  | cons c r ih =>
    cases r with
    | nil => rfl
    | cons d r2 =>
      rw [noDoubleHyphen_cons_cons, Bool.and_eq_true]
      constructor
      · have hc : c ≠ '-' := h c (List.mem_cons_self _ _)
        simp [hc]
      · exact ih fun x hx => h x (List.mem_cons_of_mem c hx)

theorem noDouble_cons_of (c : Char) (r : List Char)
    (h1 : noDoubleHyphen r = true)
    (h2 : ∀ d, r.head? = some d → ¬(c = '-' ∧ d = '-')) :
    noDoubleHyphen (c :: r) = true := by
  cases r with
  | nil => rfl
  | cons d r2 =>
    rw [noDoubleHyphen_cons_cons, Bool.and_eq_true]
    refine ⟨?_, h1⟩
    have := h2 d rfl
    by_cases hc : c = '-'
    · by_cases hd : d = '-'
      · exact absurd ⟨hc, hd⟩ this
      · simp [hd]
    · simp [hc]

theorem fallback_chars (i : Nat) (c : Char)
    (h : c ∈ ("heading-".toList) ++ natDigits i) : isAllowedIdChar c = true := by
  rcases List.mem_append.mp h with h | h
  · fin_cases h <;> decide
  · have := mem_natDigits_digit i c h
    simp only [isAllowedIdChar, decide_eq_true_eq]
    omega

theorem fallback_head (i : Nat) :
    (("heading-".toList) ++ natDigits i).head? = some 'h' := rfl

theorem fallback_last (i : Nat) (c : Char)
    (h : (("heading-".toList) ++ natDigits i).getLast? = some c) : c ≠ '-' := by
  rw [List.getLast?_append_of_ne_nil _ (natDigits_ne_nil i)] at h
  have hmem : c ∈ natDigits i := by
    have := List.getLast?_eq_getLast_of_ne_nil (natDigits_ne_nil i)
    rw [this] at h
    have hc := Option.some.injEq _ _ ▸ h
    simp only [Option.some.injEq] at hc
    subst hc
    exact List.getLast_mem _
  have := mem_natDigits_digit i c hmem
  intro hc
  subst hc
  simp at this

theorem fallback_noDouble (i : Nat) :
    noDoubleHyphen (("heading-".toList) ++ natDigits i) = true := by
  have hd : noDoubleHyphen ('-' :: natDigits i) = true := by
    refine noDouble_cons_of _ _ ?_ ?_
    · exact noDouble_of_no_hyphen _ fun c hc => by
        have := mem_natDigits_digit i c hc
        intro h
        subst h
        simp at this
    · intro d hd hcd
      have hmem : d ∈ natDigits i := by
        cases hnd : natDigits i with
        | nil => rw [hnd] at hd; simp at hd
        | cons x xs =>
          rw [hnd] at hd
          simp only [List.head?_cons, Option.some.injEq] at hd
          subst hd
          exact List.mem_cons_self _ _
      have := mem_natDigits_digit i d hmem
      rw [hcd.2] at this
      simp at this
  show noDoubleHyphen
    ('h' :: 'e' :: 'a' :: 'd' :: 'i' :: 'n' :: 'g' :: '-' :: natDigits i) = true
  rw [noDoubleHyphen_cons_cons, noDoubleHyphen_cons_cons,
    noDoubleHyphen_cons_cons, noDoubleHyphen_cons_cons,
    noDoubleHyphen_cons_cons, noDoubleHyphen_cons_cons,
    noDoubleHyphen_cons_cons]
  rw [hd]
  decide

theorem collapse_all_hyphen (l : List Char) (h : ∀ c ∈ l, c = '-') :
    collapseHyphens l = [] ∨ collapseHyphens l = ['-'] := by
  induction l with
  | nil => exact Or.inl rfl
  | cons c r ih =>
    have hc : c = '-' := h c (List.mem_cons_self _ _)
    cases r with
    | nil => exact Or.inr (by rw [hc]; rfl)
    | cons d r2 =>
      have hd : d = '-' := h d (List.mem_cons_of_mem _ (List.mem_cons_self _ _))
      rw [collapseHyphens_cons_cons, if_pos (by simp [hc, hd])]
      exact ih fun x hx => h x (List.mem_cons_of_mem _ hx)

theorem strip_all_hyphen (l : List Char) (h : ∀ c ∈ l, c = '-') :
    dropTrailingHyphen (dropLeadingHyphen (collapseHyphens l)) = [] := by
  rcases collapse_all_hyphen l h with hc | hc
  · rw [hc]
    rfl
  · rw [hc]
    rfl

/-! ## Claim C1 -/

/-- C1, counterexample to the claim as stated: the text consisting of one
underscore is mapped by `generateId` to the underscore itself, and the
underscore is outside the claims character set (lower-case letters, digits,
CJK ideographs, hyphens). -/
theorem generateId_underscore_escapes :
    generateId ['_'] 0 = ['_'] ∧ isClaimIdChar '_' = false := by decide

/-- C1 (amended): for every heading text `t` and index `i`, `generateId t i`
is a non-empty string composed only of lower-case letters, digits,
underscores, CJK ideographs, and hyphens, with no leading or trailing hyphen
and no run of two or more consecutive hyphens.  (The amendment adds the
underscore, which the JS character class `\w` preserves, to the allowed
character set.) -/
theorem generateId_wellformed (t : List Char) (i : Nat) :
    generateId t i ≠ [] ∧
    (∀ c ∈ generateId t i, isAllowedIdChar c = true) ∧
    (∀ c, (generateId t i).head? = some c → c ≠ '-') ∧
    (∀ c, (generateId t i).getLast? = some c → c ≠ '-') ∧
    noDoubleHyphen (generateId t i) = true := by
  unfold generateId
  by_cases hs : strippedId t = []
  · rw [if_pos hs]
    refine ⟨fun hemp => natDigits_ne_nil i (List.append_eq_nil.mp hemp).2,
      fallback_chars i, ?_, fallback_last i, fallback_noDouble i⟩
    intro c hc
    rw [fallback_head i] at hc
    simp only [Option.some.injEq] at hc
    subst hc
    decide
  · rw [if_neg hs]
    exact ⟨hs, fun c hc => mem_replaceSpecial_allowed t c (strippedId_mem t c hc),
      strippedId_head t, strippedId_last t, strippedId_noDouble t⟩

/-- C1 witness: the amended well-formedness at a concrete input. -/
theorem generateId_wellformed_witness :
    generateId "Hello World".toList 0 ≠ [] ∧
    (∀ c ∈ generateId "Hello World".toList 0, isAllowedIdChar c = true) ∧
    (∀ c, (generateId "Hello World".toList 0).head? = some c → c ≠ '-') ∧
    (∀ c, (generateId "Hello World".toList 0).getLast? = some c → c ≠ '-') ∧
    noDoubleHyphen (generateId "Hello World".toList 0) = true :=
  generateId_wellformed "Hello World".toList 0

/-! ## Claim C2 -/

/-- C2, counterexample to the claim as stated: the text consisting of one
underscore contains no letters, digits, or CJK ideographs (it is
punctuation), yet `generateId` does not fall back to `heading-<i>`. -/
theorem generateId_underscore_not_fallback :
    (∀ c ∈ ['_'], isTextualChar c = false) ∧
    generateId ['_'] 5 ≠ ("heading-".toList) ++ natDigits 5 := by decide

/-- C2 (amended): for every heading text none of whose characters is — or
lower-cases to — a letter, digit, underscore, or CJK ideograph (no character
of the lower-cased text is in the class kept by the replacement regex) and
every index `i`, `generateId` returns exactly `heading-<i>`.  (Besides the
underscore of the counterexample, the amendment must also exclude characters
such as U+212A KELVIN SIGN, which JS lower-cases to the kept letter `k`.) -/
theorem generateId_fallback_of_symbolic (t : List Char) (i : Nat)
    (h : ∀ c ∈ t, ∀ x ∈ jsToLower c, keepChar x = false) :
    generateId t i = ("heading-".toList) ++ natDigits i := by
  have hstrip : strippedId t = [] := by
    unfold strippedId
    apply strip_all_hyphen
    intro x hx
    simp only [replaceSpecial, List.mem_map] at hx
    obtain ⟨y, hy, rfl⟩ := hx
    obtain ⟨z, hz, hyz⟩ := mem_jsLowerString t y hy
    rw [if_neg (by simp [h z hz y hyz])]
  unfold generateId
  rw [if_pos hstrip]

/-- C2 witness: a purely symbolic text falls back to the indexed id. -/
theorem generateId_fallback_witness :
    (∀ c ∈ "!!".toList, ∀ x ∈ jsToLower c, keepChar x = false) ∧
    generateId "!!".toList 3 = ("heading-".toList) ++ natDigits 3 :=
  ⟨by decide, generateId_fallback_of_symbolic "!!".toList 3 (by decide)⟩

/-! ## Lemmas about the Scroll Tracker scan -/

theorem scanBack_none (p : HeadingPos → Bool) (l : List HeadingPos) :
    scanBack p l = none ↔ ∀ h ∈ l, p h = false := by
  induction l with
  | nil => simp [scanBack]
  | cons h rest ih =>
    simp only [scanBack]
    constructor
    · intro hn
      cases hs : scanBack p rest with
      | some r => rw [hs] at hn; exact absurd hn (by simp)
      | none =>
        rw [hs] at hn
        intro x hx
        rcases List.mem_cons.mp hx with hx | hx
        · subst hx
          by_cases hp : p x = true
          · rw [if_pos hp] at hn
            exact absurd hn (by simp)
          · exact Bool.eq_false_iff.mpr hp
        · exact ih.mp hs x hx
    · intro hall
      have hrest : scanBack p rest = none :=
        ih.mpr fun x hx => hall x (List.mem_cons_of_mem h hx)
      rw [hrest]
      rw [if_neg (by rw [hall h (List.mem_cons_self _ _)]; simp)]

theorem scanBack_some (p : HeadingPos → Bool) (l : List HeadingPos)
    (r : HeadingPos) (hr : scanBack p l = some r) :
    p r = true ∧ ∃ i : Nat, l[i]? = some r ∧
      ∀ (j : Nat) (x : HeadingPos), i < j → l[j]? = some x → p x = false := by
  induction l with
  | nil => simp [scanBack] at hr
  | cons h rest ih =>
    simp only [scanBack] at hr
    cases hs : scanBack p rest with
    | some q =>
      rw [hs] at hr
      simp only [Option.some.injEq] at hr
      subst hr
      obtain ⟨hp, i, hi, hlater⟩ := ih hs
      refine ⟨hp, i + 1, by simpa using hi, ?_⟩
      intro j x hij hjx
      cases j with
      | zero => omega
      | succ j2 =>
        rw [List.getElem?_cons_succ] at hjx
        exact hlater j2 x (by omega) hjx
    | none =>
      rw [hs] at hr
      by_cases hp : p h = true
      · rw [if_pos hp] at hr
        simp only [Option.some.injEq] at hr
        subst hr
        refine ⟨hp, 0, by simp, ?_⟩
        intro j x hij hjx
        cases j with
        | zero => omega
        | succ j2 =>
          rw [List.getElem?_cons_succ] at hjx
          exact (scanBack_none p rest).mp hs x (List.getElem?_mem hjx)
      · rw [if_neg hp] at hr
        exact absurd hr (by simp)

/-! ## Claim C3 -/

/-- C3: on a non-empty heading list the active heading is the one found by
scanning from last to first for the first heading whose top is at most
`scrollTop + (config.scrollOffset + 10)` — equivalently, the latest heading
in document order passing the threshold test, every later heading failing
it — and when no heading qualifies the first heading in document order is
chosen.  The configured offset is taken from the `cfg` argument of the
evaluation itself (read fresh, never cached), as the universally quantified
`cfg` records.  Concretely, with tops `[0, 500, 1000]` and `scrollOffset`
80, scroll 600 activates the heading at 500 and scroll 0 the heading at 0;
re-evaluating the same scroll 600 after mutating the offset to 390 activates
the heading at 1000 instead. -/
theorem getCurrentHeading_policy (cfg : Config) (hs : List HeadingPos)
    (st : Int) :
    (hs ≠ [] → ∃ r, getCurrentHeading cfg hs st = some r ∧
      ((∃ i : Nat, ∃ h : HeadingPos, hs[i]? = some h ∧
          h.offsetTop ≤ st + (cfg.scrollOffset + 10) ∧ r = h.id ∧
          ∀ (j : Nat) (h2 : HeadingPos), i < j → hs[j]? = some h2 →
            ¬(h2.offsetTop ≤ st + (cfg.scrollOffset + 10))) ∨
        ((∀ h ∈ hs, ¬(h.offsetTop ≤ st + (cfg.scrollOffset + 10))) ∧
          ∃ h0, hs.head? = some h0 ∧ r = h0.id))) ∧
    getCurrentHeading ⟨"目录".toList, 80⟩
      [⟨"h0".toList, 0⟩, ⟨"h500".toList, 500⟩, ⟨"h1000".toList, 1000⟩] 600 =
      some "h500".toList ∧
    getCurrentHeading ⟨"目录".toList, 80⟩
      [⟨"h0".toList, 0⟩, ⟨"h500".toList, 500⟩, ⟨"h1000".toList, 1000⟩] 0 =
      some "h0".toList ∧
    getCurrentHeading ⟨"目录".toList, 390⟩
      [⟨"h0".toList, 0⟩, ⟨"h500".toList, 500⟩, ⟨"h1000".toList, 1000⟩] 600 =
      some "h1000".toList := by
  refine ⟨?_, by decide, by decide, by decide⟩
  intro hne
  unfold getCurrentHeading
  cases hscan : scanBack
      (fun h => decide (h.offsetTop ≤ st + (cfg.scrollOffset + 10))) hs with
  | some h =>
    refine ⟨h.id, rfl, ?_⟩
    left
    obtain ⟨hp, i, hi, hlater⟩ := scanBack_some _ _ _ hscan
    refine ⟨i, h, hi, by simpa using hp, rfl, ?_⟩
    intro j h2 hij hj
    have := hlater j h2 hij hj
    simpa using this
  | none =>
    cases hs with
    | nil => exact absurd rfl hne
    | cons h0 rest =>
      refine ⟨h0.id, rfl, ?_⟩
      right
      refine ⟨?_, h0, rfl, rfl⟩
      intro h hh
      have := (scanBack_none _ _).mp hscan h hh
      simpa using this

/-- C3 witness: the scan policy instantiated on a concrete evaluation. -/
theorem getCurrentHeading_policy_witness :
    ∃ r, getCurrentHeading ⟨"目录".toList, 80⟩
        [⟨"h0".toList, 0⟩, ⟨"h500".toList, 500⟩, ⟨"h1000".toList, 1000⟩] 600 =
        some r ∧
      ((∃ i : Nat, ∃ h : HeadingPos,
          ([⟨"h0".toList, 0⟩, ⟨"h500".toList, 500⟩,
            ⟨"h1000".toList, 1000⟩] : List HeadingPos)[i]? = some h ∧
          h.offsetTop ≤ 600 + ((80 : Int) + 10) ∧ r = h.id ∧
          ∀ (j : Nat) (h2 : HeadingPos), i < j →
            ([⟨"h0".toList, 0⟩, ⟨"h500".toList, 500⟩,
              ⟨"h1000".toList, 1000⟩] : List HeadingPos)[j]? = some h2 →
            ¬(h2.offsetTop ≤ 600 + ((80 : Int) + 10))) ∨
        ((∀ h ∈ ([⟨"h0".toList, 0⟩, ⟨"h500".toList, 500⟩,
            ⟨"h1000".toList, 1000⟩] : List HeadingPos),
            ¬(h.offsetTop ≤ 600 + ((80 : Int) + 10))) ∧
          ∃ h0, ([⟨"h0".toList, 0⟩, ⟨"h500".toList, 500⟩,
            ⟨"h1000".toList, 1000⟩] : List HeadingPos).head? = some h0 ∧
            r = h0.id)) :=
  (getCurrentHeading_policy ⟨"目录".toList, 80⟩
    [⟨"h0".toList, 0⟩, ⟨"h500".toList, 500⟩, ⟨"h1000".toList, 1000⟩] 600).1
    (by decide)

/-! ## Claim C4 -/

/-- C4: the anchor id of a heading is resolved by the first matching rule:
(1) a non-empty pre-existing `id` attribute; (2) the non-empty fragment of
an internal self-referencing anchor link; (3) a freshly derived
`generateId`; and the id is written back onto the element exactly when it
was freshly derived (rules 1 and 2 leave the element untouched). -/
theorem resolveHeadingId_order (h : HeadingElem) (idx : Nat) :
    (h.id ≠ [] → resolveHeadingId h idx = (h.id, h)) ∧
    (∀ href, h.id = [] → h.anchorHref = some href → href.drop 1 ≠ [] →
      resolveHeadingId h idx = (href.drop 1, h)) ∧
    (h.id = [] →
      (h.anchorHref = none ∨
        ∃ href, h.anchorHref = some href ∧ href.drop 1 = []) →
      resolveHeadingId h idx =
        (generateId (jsTrim h.text) idx,
         { h with id := generateId (jsTrim h.text) idx })) ∧
    ((h.id ≠ [] ∨ ∃ href, h.anchorHref = some href ∧ href.drop 1 ≠ []) →
      (resolveHeadingId h idx).2 = h) := by
  refine ⟨?_, ?_, ?_, ?_⟩
  · intro hid
    simp [resolveHeadingId, hid]
  · intro href hid ha hfrag
    rw [List.drop_one] at hfrag
    simp [resolveHeadingId, hid, ha, hfrag]
  · intro hid hcase
    rcases hcase with ha | ⟨href, ha, hfrag⟩
    · simp [resolveHeadingId, hid, ha]
    · simp [resolveHeadingId, hid, ha, hfrag]
  · intro hcase
    rcases hcase with hid | ⟨href, ha, hfrag⟩
    · simp [resolveHeadingId, hid]
    · by_cases hid : h.id = []
      · rw [List.drop_one] at hfrag
        simp [resolveHeadingId, hid, ha, hfrag]
      · simp [resolveHeadingId, hid]

/-- C4 witness: the three rules and the write-back discipline exercised at a
concrete heading (no pre-existing id, no anchor: rule 3 fires and the id is
written back). -/
theorem resolveHeadingId_order_witness :
    resolveHeadingId ⟨2, " Hello  World ".toList, [], none, false, false⟩ 0 =
      ("hello-world".toList,
       ⟨2, " Hello  World ".toList, "hello-world".toList, none, false, false⟩) :=
  by
  have h := (resolveHeadingId_order
    ⟨2, " Hello  World ".toList, [], none, false, false⟩ 0).2.2.1 rfl
    (Or.inl rfl)
  rw [h]
  decide

/-! ## Claims C7 and C9: the Heading Collector filter -/

/-- C7, counterexample to the claim as stated: a heading that itself carries
the `tabset` class but has no `tabset` ancestor is omitted from the
Collector output, although the claim promises that every heading without an
exclusion-marked ancestor appears. -/
theorem collectHeadings_self_tabset_counterexample :
    (⟨2, "tab".toList, [], none, true, false⟩ : HeadingElem).ancestorTabset
        = false ∧
    (⟨2, "tab".toList, [], none, true, false⟩ : HeadingElem) ∉
      collectHeadings ⟨true, [⟨2, "tab".toList, [], none, true, false⟩], [],
        none⟩ := by
  refine ⟨rfl, ?_⟩
  decide

/-- C7 (amended): every heading with a `tabset` ancestor is omitted from the
Collector output regardless of its level; every heading with neither a
`tabset` ancestor nor the `tabset` class on itself appears in the output;
and the output is a sublist of the content-region headings, preserving
document order (levels untouched).  (The amendment also excludes headings
that themselves carry the marker class, since `closest` matches
ancestor-or-self.) -/
theorem collectHeadings_filter_spec (doc : Doc) :
    (∀ h ∈ doc.headings, h.ancestorTabset = true → h ∉ collectHeadings doc) ∧
    (∀ h ∈ doc.headings, h.selfTabset = false → h.ancestorTabset = false →
      h ∈ collectHeadings doc) ∧
    List.Sublist (collectHeadings doc) doc.headings := by
  refine ⟨?_, ?_, List.filter_sublist doc.headings⟩
  · intro h _ ha hmem
    have := List.of_mem_filter hmem
    simp [headingKept, ha] at this
  · intro h hmem hs ha
    exact List.mem_filter.mpr ⟨hmem, by simp [headingKept, hs, ha]⟩

/-- C7 witness: the filter at a concrete document (one kept heading, one
with a tabset ancestor). -/
theorem collectHeadings_filter_spec_witness :
    (∀ h ∈ ([⟨2, "a".toList, [], none, false, false⟩,
        ⟨3, "b".toList, [], none, false, true⟩] : List HeadingElem),
      h.ancestorTabset = true →
      h ∉ collectHeadings ⟨true, [⟨2, "a".toList, [], none, false, false⟩,
        ⟨3, "b".toList, [], none, false, true⟩], [], none⟩) ∧
    (∀ h ∈ ([⟨2, "a".toList, [], none, false, false⟩,
        ⟨3, "b".toList, [], none, false, true⟩] : List HeadingElem),
      h.selfTabset = false → h.ancestorTabset = false →
      h ∈ collectHeadings ⟨true, [⟨2, "a".toList, [], none, false, false⟩,
        ⟨3, "b".toList, [], none, false, true⟩], [], none⟩) ∧
    List.Sublist (collectHeadings ⟨true,
      [⟨2, "a".toList, [], none, false, false⟩,
       ⟨3, "b".toList, [], none, false, true⟩], [], none⟩)
      [⟨2, "a".toList, [], none, false, false⟩,
       ⟨3, "b".toList, [], none, false, true⟩] :=
  collectHeadings_filter_spec ⟨true, [⟨2, "a".toList, [], none, false, false⟩,
    ⟨3, "b".toList, [], none, false, true⟩], [], none⟩

/-- C9: a heading element that itself carries the `tabset` class is excluded
from the Collector output regardless of its ancestors, because
`closest('.tabset')` matches ancestor-or-self. -/
theorem collectHeadings_excludes_self_tabset (doc : Doc) (h : HeadingElem)
    (hs : h.selfTabset = true) : h ∉ collectHeadings doc := by
  intro hmem
  have := List.of_mem_filter hmem
  simp [headingKept, hs] at this

/-- C9 witness: the self-marked heading of the C7 counterexample document,
reached through the general theorem. -/
theorem collectHeadings_excludes_self_tabset_witness :
    (⟨2, "tab".toList, [], none, true, true⟩ : HeadingElem) ∉
      collectHeadings ⟨true, [⟨2, "tab".toList, [], none, true, true⟩], [],
        none⟩ :=
  collectHeadings_excludes_self_tabset _ _ rfl

/-! ## Claim C8 -/

/-- C8: a click on a navigation entry whose target id resolves to no element
in the document issues no scroll command (and, being a total function, the
handler raises no error); `preventDefault` has already suppressed the
default jump. -/
theorem handleTocClick_stale_noop (cfg : Config)
    (getElementById : List Char → Option Int) (href : List Char)
    (hmiss : getElementById (href.drop 1) = none) :
    handleTocClick cfg getElementById href = none := by
  unfold handleTocClick
  rw [hmiss]

/-- C8 witness: a stale target on a concrete lookup table. -/
theorem handleTocClick_stale_noop_witness :
    handleTocClick ⟨"目录".toList, 80⟩ (fun _ => none) "#gone".toList = none :=
  handleTocClick_stale_noop ⟨"目录".toList, 80⟩ (fun _ => none)
    "#gone".toList rfl

/-! ## Claim C10 -/

/-- C10: whenever the panels auto-scroll is triggered (the active link is
clipped outside the visible area), the computed scroll target is clamped:
it is never negative, never exceeds `max 0 (scrollHeight - containerHeight)`,
and lies in the interval `[0, scrollHeight - containerHeight]` whenever that
interval is non-empty (`containerHeight ≤ scrollHeight`). -/
theorem scrollTocToVisible_clamped (containerTop containerHeight linkRectTop
    linkRectBottom tocScrollTop scrollHeight r : Int)
    (h : scrollTocToVisible containerTop containerHeight linkRectTop
      linkRectBottom tocScrollTop scrollHeight = some r) :
    0 ≤ r ∧ r ≤ max 0 (scrollHeight - containerHeight) ∧
      (containerHeight ≤ scrollHeight → r ≤ scrollHeight - containerHeight) := by
  unfold scrollTocToVisible at h
  dsimp only at h
  split at h
  · exact absurd h (by simp)
  · simp only [Option.some.injEq] at h
    subst h
    refine ⟨le_max_left 0 _, ?_, ?_⟩
    · exact max_le_max (le_refl 0) (min_le_right _ _)
    · intro hcs
      rw [max_le_iff]
      exact ⟨by omega, min_le_right _ _⟩

/-- C10 witness: a concrete triggered auto-scroll (link clipped below the
panel) whose clamped target is 80 within height bounds 0 and 300. -/
theorem scrollTocToVisible_clamped_witness :
    0 ≤ (80 : Int) ∧ (80 : Int) ≤ max 0 ((400 : Int) - 100) ∧
      ((100 : Int) ≤ 400 → (80 : Int) ≤ (400 : Int) - 100) :=
  scrollTocToVisible_clamped 0 100 150 170 0 400 80 (by decide)

/-! ## Lemmas about the regeneration pipeline -/

theorem resolveHeadingId_snd_cases (h : HeadingElem) (i : Nat) :
    (resolveHeadingId h i).2 = h ∨
    (resolveHeadingId h i).2 =
      { h with id := generateId (jsTrim h.text) i } := by
  unfold resolveHeadingId
  dsimp only
  split
  · exact Or.inl rfl
  · split
    · split
      · exact Or.inr rfl
      · exact Or.inl rfl
    · exact Or.inl rfl

theorem resolveHeadingId_snd_shape (h : HeadingElem) (i : Nat) :
    headingShape (resolveHeadingId h i).2 = headingShape h := by
  rcases resolveHeadingId_snd_cases h i with hc | hc
  · rw [hc]
  · rw [hc]
    rfl

theorem resolveHeadingId_snd_kept (h : HeadingElem) (i : Nat) :
    headingKept (resolveHeadingId h i).2 = headingKept h := by
  rcases resolveHeadingId_snd_cases h i with hc | hc
  · rw [hc]
  · rw [hc]
    rfl

theorem processHeadings_fst_shape (l : List HeadingElem) (i : Nat) :
    (processHeadings l i).1.map headingShape = l.map headingShape := by
  induction l generalizing i with
  | nil => rfl
  | cons h rest ih =>
    unfold processHeadings
    dsimp only
    split
    · simp only [List.map_cons, resolveHeadingId_snd_shape]
      rw [ih]
    · simp only [List.map_cons]
      rw [ih]

theorem processHeadings_filter_shape (l : List HeadingElem) (i : Nat) :
    ((processHeadings l i).1.filter headingKept).map headingShape =
      (l.filter headingKept).map headingShape := by
  induction l generalizing i with
  | nil => rfl
  | cons h rest ih =>
    unfold processHeadings
    dsimp only
    by_cases hk : headingKept h = true
    · rw [if_pos hk]
      dsimp only
      rw [List.filter_cons, List.filter_cons,
        resolveHeadingId_snd_kept, hk]
      simp only [if_true, List.map_cons, resolveHeadingId_snd_shape]
      rw [ih]
    · rw [if_neg hk]
      dsimp only
      rw [List.filter_cons, List.filter_cons]
      rw [show headingKept h = false from Bool.eq_false_iff.mpr hk]
      simp only [if_false, Bool.false_eq_true]
      exact ih i

theorem processHeadings_snd_level (l : List HeadingElem) (i : Nat) :
    (processHeadings l i).2.map TocEntry.level =
      (l.filter headingKept).map HeadingElem.level := by
  induction l generalizing i with
  | nil => rfl
  | cons h rest ih =>
    unfold processHeadings
    dsimp only
    by_cases hk : headingKept h = true
    · rw [if_pos hk, List.filter_cons, hk]
      simp only [if_true, List.map_cons]
      rw [ih]
    · rw [if_neg hk, List.filter_cons,
        show headingKept h = false from Bool.eq_false_iff.mpr hk]
      simp only [if_false, Bool.false_eq_true]
      exact ih i

theorem processHeadings_snd_text (l : List HeadingElem) (i : Nat) :
    (processHeadings l i).2.map TocEntry.text =
      (l.filter headingKept).map (fun h => jsTrim h.text) := by
  induction l generalizing i with
  | nil => rfl
  | cons h rest ih =>
    unfold processHeadings
    dsimp only
    by_cases hk : headingKept h = true
    · rw [if_pos hk, List.filter_cons, hk]
      simp only [if_true, List.map_cons]
      rw [ih]
    · rw [if_neg hk, List.filter_cons,
        show headingKept h = false from Bool.eq_false_iff.mpr hk]
      simp only [if_false, Bool.false_eq_true]
      exact ih i

theorem map_of_shape_eq {α : Type} (f : HeadingElem → α)
    (g : Nat × List Char × Bool × Bool → α)
    (hfg : ∀ h, f h = g (headingShape h))
    (l1 l2 : List HeadingElem)
    (hmap : l1.map headingShape = l2.map headingShape) :
    l1.map f = l2.map f := by
  have h1 : l1.map f = (l1.map headingShape).map g := by
    rw [List.map_map]
    exact List.map_congr_left fun h _ => hfg h
  have h2 : l2.map f = (l2.map headingShape).map g := by
    rw [List.map_map]
    exact List.map_congr_left fun h _ => hfg h
  rw [h1, h2, hmap]

theorem length_of_shape_eq (l1 l2 : List HeadingElem)
    (hmap : l1.map headingShape = l2.map headingShape) :
    l1.length = l2.length := by
  have := congrArg List.length hmap
  simpa using this

theorem tail_eq_nil_of_length_le_one {α : Type} (l : List α)
    (h : l.length ≤ 1) : l.tail = [] := by
  cases l with
  | nil => rfl
  | cons a t =>
    cases t with
    | nil => rfl
    | cons b t2 => simp at h

theorem removeExistingTOC_parts (doc : Doc) :
    (removeExistingTOC doc).hasContent = doc.hasContent ∧
    (removeExistingTOC doc).headings = doc.headings ∧
    (removeExistingTOC doc).tocs = doc.tocs.tail ∧
    (removeExistingTOC doc).native = doc.native.map (fun _ => []) := by
  unfold removeExistingTOC
  dsimp only
  cases doc.native <;> simp

theorem generateTOC_run (cfg : Config) (doc : Doc)
    (hc : doc.hasContent = true)
    (hn : doc.native.isSome = true)
    (hh : (doc.headings.filter headingKept).length ≠ 0) :
    generateTOC cfg doc =
      { hasContent := doc.hasContent,
        headings := (processHeadings doc.headings 0).1,
        tocs := ⟨cfg.tocTitle, (processHeadings doc.headings 0).2⟩ ::
          doc.tocs.tail,
        native := some "none".toList } := by
  obtain ⟨d0, hd0⟩ := Option.isSome_iff_exists.mp hn
  obtain ⟨h1, h2, h3, h4⟩ := removeExistingTOC_parts doc
  unfold generateTOC collectHeadings
  dsimp only
  rw [h1, h2, h3, hc]
  rw [if_neg (by simp)]
  rw [if_neg hh]
  unfold insertTOC
  rw [h4, hd0]
  rfl

theorem generateTOC_tocs_length (cfg : Config) (d : Doc)
    (hd : d.tocs.length ≤ 1) : (generateTOC cfg d).tocs.length ≤ 1 := by
  obtain ⟨h1, h2, h3, h4⟩ := removeExistingTOC_parts d
  have htail : d.tocs.tail = [] := tail_eq_nil_of_length_le_one _ hd
  unfold generateTOC
  dsimp only
  split
  · rw [h3, htail]
    simp
  · split
    · rw [h3, htail]
      simp
    · unfold insertTOC
      split
      · dsimp only
        rw [h3, htail]
        simp
      · dsimp only
        rw [h3, htail]
        simp

/-! ## Claim C5 -/

/-- C5, counterexample to the claim as stated: in a document with no content
region (and one stale container, at most one as required), two refreshes
leave zero synthesized containers, not exactly one: the claim needs the
content region, a surviving heading and the native widget to be present. -/
theorem generateTOC_twice_no_content_counterexample :
    (⟨false, [], [⟨[], []⟩], none⟩ : Doc).tocs.length ≤ 1 ∧
    (generateTOC ⟨"目录".toList, 80⟩ (generateTOC ⟨"目录".toList, 80⟩
      ⟨false, [], [⟨[], []⟩], none⟩)).tocs.length ≠ 1 := by decide

/-- C5 (amended): starting from any document state with at most one
synthesized container in which the content region resolves, at least one
heading survives the tabset filter, and the native widget is present,
calling `refresh()` twice in succession leaves exactly one synthesized
`.wiki-toc-simple` container, holding exactly one entry per surviving
heading in document order (same count, same levels, same trimmed texts);
moreover every run preserves the at-most-one-container invariant because
generation removes the existing container before inserting a new one. -/
theorem generateTOC_twice_unique_container (cfg : Config) (doc : Doc)
    (hts : doc.tocs.length ≤ 1) (hc : doc.hasContent = true)
    (hn : doc.native.isSome = true)
    (hh : doc.headings.filter headingKept ≠ []) :
    (∃ p : TocPanel, (generateTOC cfg (generateTOC cfg doc)).tocs = [p] ∧
      p.entries.length = (doc.headings.filter headingKept).length ∧
      p.entries.map TocEntry.level =
        (doc.headings.filter headingKept).map HeadingElem.level ∧
      p.entries.map TocEntry.text =
        (doc.headings.filter headingKept).map (fun h => jsTrim h.text)) ∧
    (∀ d : Doc, d.tocs.length ≤ 1 → (generateTOC cfg d).tocs.length ≤ 1) := by
  refine ⟨?_, fun d hd => generateTOC_tocs_length cfg d hd⟩
  have hh0 : (doc.headings.filter headingKept).length ≠ 0 := by
    simpa [List.length_eq_zero] using hh
  have htail : doc.tocs.tail = [] := tail_eq_nil_of_length_le_one _ hts
  have r1 := generateTOC_run cfg doc hc hn hh0
  have hshape : ((processHeadings doc.headings 0).1.filter headingKept).map
        headingShape = (doc.headings.filter headingKept).map headingShape :=
    processHeadings_filter_shape doc.headings 0
  have hlen1 : ((processHeadings doc.headings 0).1.filter headingKept).length
      = (doc.headings.filter headingKept).length :=
    length_of_shape_eq _ _ hshape
  have hh1 : ((processHeadings doc.headings 0).1.filter headingKept).length
      ≠ 0 := by
    rw [hlen1]
    exact hh0
  rw [r1, hc, htail]
  have r2 := generateTOC_run cfg
    ⟨true, (processHeadings doc.headings 0).1,
      [⟨cfg.tocTitle, (processHeadings doc.headings 0).2⟩],
      some "none".toList⟩ rfl rfl hh1
  rw [r2]
  refine ⟨⟨cfg.tocTitle,
    (processHeadings (processHeadings doc.headings 0).1 0).2⟩, rfl, ?_, ?_, ?_⟩
  · have hmap := processHeadings_snd_level (processHeadings doc.headings 0).1 0
    have := congrArg List.length hmap
    simp only [List.length_map] at this
    rw [this, hlen1]
  · rw [processHeadings_snd_level]
    exact map_of_shape_eq HeadingElem.level (fun s => s.1) (fun h => rfl)
      _ _ hshape
  · rw [processHeadings_snd_text]
    exact map_of_shape_eq (fun h => jsTrim h.text) (fun s => jsTrim s.2.1)
      (fun h => rfl) _ _ hshape

/-- C5 witness: two refreshes on a concrete one-heading document, reached
through the general theorem. -/
theorem generateTOC_twice_unique_container_witness :
    (∃ p : TocPanel, (generateTOC ⟨"目录".toList, 80⟩
        (generateTOC ⟨"目录".toList, 80⟩
          ⟨true, [⟨2, "Hi".toList, [], none, false, false⟩], [],
            some []⟩)).tocs = [p] ∧
      p.entries.length = (([⟨2, "Hi".toList, [], none, false, false⟩] :
        List HeadingElem).filter headingKept).length ∧
      p.entries.map TocEntry.level =
        (([⟨2, "Hi".toList, [], none, false, false⟩] :
          List HeadingElem).filter headingKept).map HeadingElem.level ∧
      p.entries.map TocEntry.text =
        (([⟨2, "Hi".toList, [], none, false, false⟩] :
          List HeadingElem).filter headingKept).map
          (fun h => jsTrim h.text)) ∧
    (∀ d : Doc, d.tocs.length ≤ 1 →
      (generateTOC ⟨"目录".toList, 80⟩ d).tocs.length ≤ 1) :=
  generateTOC_twice_unique_container ⟨"目录".toList, 80⟩
    ⟨true, [⟨2, "Hi".toList, [], none, false, false⟩], [], some []⟩
    (by decide) rfl rfl (by decide)

/-! ## Claim C6 -/

theorem Doc_ext (a b : Doc) (h1 : a.hasContent = b.hasContent)
    (h2 : a.headings = b.headings) (h3 : a.tocs = b.tocs)
    (h4 : a.native = b.native) : a = b := by
  cases a
  cases b
  simp_all

/-- C6, counterexample to the claim as stated: a native widget whose inline
display was `flex` before the refresh is left with an empty inline display
(`style.display = ''`) by `remove()`, not with its pre-mount value. -/
theorem removeExistingTOC_display_counterexample :
    (⟨true, [⟨2, "Hi".toList, [], none, false, false⟩], [],
      some "flex".toList⟩ : Doc).native = some "flex".toList ∧
    (removeExistingTOC (generateTOC ⟨"目录".toList, 80⟩
      ⟨true, [⟨2, "Hi".toList, [], none, false, false⟩], [],
        some "flex".toList⟩)).tocs = [] ∧
    (removeExistingTOC (generateTOC ⟨"目录".toList, 80⟩
      ⟨true, [⟨2, "Hi".toList, [], none, false, false⟩], [],
        some "flex".toList⟩)).native ≠ some "flex".toList := by decide

/-- C6 (amended): `remove()` after `refresh()` leaves zero synthesized
containers; whenever the native widget is present `remove()` sets its inline
display to the empty string — which restores stylesheet-controlled
visibility and equals the pre-mount display state exactly when the widget
carried no inline display value, the pre-existing inline value not being
preserved in general; `remove()` is idempotent under the at-most-one
container invariant and is safe (a pure no-op on the containers and
headings) when nothing is mounted. -/
theorem removeExistingTOC_props (cfg : Config) (doc : Doc) :
    (doc.tocs.length ≤ 1 →
      (removeExistingTOC (generateTOC cfg doc)).tocs = []) ∧
    (doc.native.isSome = true → (removeExistingTOC doc).native = some []) ∧
    (doc.native = none → (removeExistingTOC doc).native = none) ∧
    (doc.tocs.length ≤ 1 →
      removeExistingTOC (removeExistingTOC doc) = removeExistingTOC doc) ∧
    (doc.tocs = [] → (removeExistingTOC doc).tocs = [] ∧
      (removeExistingTOC doc).headings = doc.headings ∧
      (removeExistingTOC doc).hasContent = doc.hasContent) := by
  obtain ⟨hcnt, hhds, htcs, hnat⟩ := removeExistingTOC_parts doc
  refine ⟨?_, ?_, ?_, ?_, ?_⟩
  · intro hts
    obtain ⟨_, _, ht2, _⟩ :=
      removeExistingTOC_parts (generateTOC cfg doc)
    rw [ht2]
    exact tail_eq_nil_of_length_le_one _ (generateTOC_tocs_length cfg doc hts)
  · intro hs
    obtain ⟨d0, hd0⟩ := Option.isSome_iff_exists.mp hs
    rw [hnat, hd0]
    rfl
  · intro hs
    rw [hnat, hs]
    rfl
  · intro hts
    have htail : doc.tocs.tail = [] := tail_eq_nil_of_length_le_one _ hts
    obtain ⟨hcnt2, hhds2, htcs2, hnat2⟩ :=
      removeExistingTOC_parts (removeExistingTOC doc)
    refine Doc_ext _ _ hcnt2 hhds2 ?_ ?_
    · rw [htcs2, htcs, htail]
      rfl
    · rw [hnat2, hnat]
      cases doc.native <;> rfl
  · intro hts
    exact ⟨by rw [htcs, hts]; rfl, hhds, hcnt⟩

/-- C6 witness: remove-after-refresh and idempotence at a concrete
document. -/
theorem removeExistingTOC_props_witness :
    (removeExistingTOC (generateTOC ⟨"目录".toList, 80⟩
      ⟨true, [⟨2, "Hi".toList, [], none, false, false⟩], [],
        some "flex".toList⟩)).tocs = [] ∧
    (removeExistingTOC (⟨true, [⟨2, "Hi".toList, [], none, false, false⟩],
      [], some "flex".toList⟩ : Doc)).native = some [] ∧
    removeExistingTOC (removeExistingTOC
      ⟨true, [⟨2, "Hi".toList, [], none, false, false⟩], [],
        some "flex".toList⟩) =
      removeExistingTOC ⟨true, [⟨2, "Hi".toList, [], none, false, false⟩],
        [], some "flex".toList⟩ :=
  ⟨(removeExistingTOC_props ⟨"目录".toList, 80⟩
      ⟨true, [⟨2, "Hi".toList, [], none, false, false⟩], [],
        some "flex".toList⟩).1 (by decide),
   (removeExistingTOC_props ⟨"目录".toList, 80⟩
      ⟨true, [⟨2, "Hi".toList, [], none, false, false⟩], [],
        some "flex".toList⟩).2.1 rfl,
   (removeExistingTOC_props ⟨"目录".toList, 80⟩
      ⟨true, [⟨2, "Hi".toList, [], none, false, false⟩], [],
        some "flex".toList⟩).2.2.2.1 (by decide)⟩
